import Mathlib

/-!
Verification of the smart_dictate recording-to-transcript pipeline.

Each definition below is a shallow embedding of the corresponding Python
function from the repository (file and symbol named in its doc comment).
Machine floats that only ever hold exact decimal parameters are modelled
as rationals; sample indices and counters are natural numbers, matching
the non-negative integers the Python code manipulates.
-/

namespace SmartDictate

/-! ## Segmenter (`transcription.py`, `_split_on_silence`, lines 212-286)

The silence-detection front end (RMS energies and the adaptive threshold)
produces a list `silence` of half-open sample ranges (`silence_samples` in
the source); the claims under verification concern the integer walk that
follows (lines 241-286), which is embedded exactly below. -/

/-- Python `int()` truncation toward zero, on a rational, written with
numerator-denominator division so that it evaluates by kernel reduction. -/
def intTrunc (q : ℚ) : ℤ :=
  if 0 ≤ q then q.num / (q.den : ℤ) else -((-q.num) / (q.den : ℤ))

/-- Derivation of the integer walk parameters `min_seg`, `max_seg` and `pad`
from the second-valued configuration, as in `_split_on_silence` lines 257-262:
`min_seg = max(1, int(min_segment_seconds * sample_rate_hz))`,
`max_seg = max(min_seg, int(max_segment_seconds * sample_rate_hz))` when
`max_segment_seconds > 0` else `audio_len`, and
`pad = max(0, int(segment_padding_seconds * sample_rate_hz))`. -/
def splitParams (sampleRateHz : ℕ) (minSegmentSeconds maxSegmentSeconds segmentPaddingSeconds : ℚ)
    (audioLen : ℕ) : ℕ × ℕ × ℕ :=
  let minSegZ : ℤ := max 1 (intTrunc (minSegmentSeconds * sampleRateHz))
  let minSeg : ℕ := minSegZ.toNat
  let maxSeg : ℕ :=
    if 0 < maxSegmentSeconds then (max minSegZ (intTrunc (maxSegmentSeconds * sampleRateHz))).toNat
    else audioLen
  let pad : ℕ := (max 0 (intTrunc (segmentPaddingSeconds * sampleRateHz))).toNat
  (minSeg, maxSeg, pad)

/-- Collapse of consecutive silent frames into silence runs
(`_split_on_silence` lines 242-252): `idx` is the index of the next frame,
`runStart` the start of the currently open run of silent frames, and a run is
kept only when its length is at least `minSilenceFrames`. -/
def silenceRegionsAux (minSilenceFrames : ℕ) (frames : List Bool) (idx : ℕ)
    (runStart : Option ℕ) (acc : List (ℕ × ℕ)) : List (ℕ × ℕ) :=
  match frames with
  | [] =>
    match runStart with
    | some r => if minSilenceFrames ≤ idx - r then acc ++ [(r, idx)] else acc
    | none => acc
  | silent :: rest =>
    match runStart, silent with
    | none, true => silenceRegionsAux minSilenceFrames rest (idx + 1) (some idx) acc
    | some r, false =>
      if minSilenceFrames ≤ idx - r then
        silenceRegionsAux minSilenceFrames rest (idx + 1) none (acc ++ [(r, idx)])
      else
        silenceRegionsAux minSilenceFrames rest (idx + 1) none acc
    | rs, _ => silenceRegionsAux minSilenceFrames rest (idx + 1) rs acc

/-- Silence runs of a frame classification (`silence_regions` in the source). -/
def silenceRegions (minSilenceFrames : ℕ) (frames : List Bool) : List (ℕ × ℕ) :=
  silenceRegionsAux minSilenceFrames frames 0 none []

/-- Conversion of frame-index silence runs to sample ranges
(`silence_samples`, lines 253-256). -/
def silenceSamples (frameSize audioLen : ℕ) (regions : List (ℕ × ℕ)) : List (ℕ × ℕ) :=
  regions.map fun p => (p.1 * frameSize, min (p.2 * frameSize) audioLen)

/-- Midpoints of the silence runs, in source order (`(s_start + s_end) // 2`). -/
def runMidpoints (silence : List (ℕ × ℕ)) : List ℕ :=
  silence.map fun p => (p.1 + p.2) / 2

/-- Inner cut-selection loop of `_split_on_silence` (lines 267-276): scan the
silence runs in order; skip a midpoint at or before `start`; skip a midpoint
closer than `minSeg` to `start`; stop scanning at the first midpoint past
`targetEnd`; otherwise remember the midpoint as the current cut. -/
def chooseCut (silence : List (ℕ × ℕ)) (start minSeg targetEnd : ℕ)
    (cut : Option ℕ) : Option ℕ :=
  match silence with
  | [] => cut
  | (sStart, sEnd) :: rest =>
    let mid := (sStart + sEnd) / 2
    if mid ≤ start then chooseCut rest start minSeg targetEnd cut
    else if mid - start < minSeg then chooseCut rest start minSeg targetEnd cut
    else if targetEnd < mid then cut
    else chooseCut rest start minSeg targetEnd (some mid)

/-- End of the segment starting at `start`: the chosen cut when the scan found
one, otherwise the target end `min (start + max_seg) audio_len`
(`_split_on_silence` lines 266-277). -/
def stepEnd (audioLen minSeg maxSeg : ℕ) (silence : List (ℕ × ℕ)) (start : ℕ) : ℕ :=
  let targetEnd := min (start + maxSeg) audioLen
  match chooseCut silence start minSeg targetEnd none with
  | some c => c
  | none => targetEnd

/-- Unpadded cut ranges traversed by the forward walk of `_split_on_silence`
(lines 263-286): the `(start, end)` pairs before the padding expansion is
applied, including the fallback re-computation of `end` when the chosen end
does not advance. -/
def splitWalkCuts (audioLen minSeg maxSeg : ℕ) (silence : List (ℕ × ℕ))
    (start : ℕ) : List (ℕ × ℕ) :=
  if _h : start < audioLen then
    let e := stepEnd audioLen minSeg maxSeg silence start
    if _h2 : e ≤ start then
      let e2 := min (start + maxSeg) audioLen
      if _h3 : e2 ≤ start then []
      else (start, e2) :: splitWalkCuts audioLen minSeg maxSeg silence e2
    else (start, e) :: splitWalkCuts audioLen minSeg maxSeg silence e
  else []
termination_by audioLen - start
decreasing_by
  · omega
  · omega

/-- Fuel-indexed evaluator for `splitWalkCuts`, used to compute the walk on
concrete inputs (the walk itself is defined by well-founded recursion, which
does not reduce inside the kernel); `splitWalkCutsAux_eq` shows it agrees with
`splitWalkCuts` whenever the fuel covers the remaining samples. -/
def splitWalkCutsAux (audioLen minSeg maxSeg : ℕ) (silence : List (ℕ × ℕ)) :
    ℕ → ℕ → List (ℕ × ℕ)
  | 0, _ => []
  | fuel + 1, start =>
    if start < audioLen then
      let e := stepEnd audioLen minSeg maxSeg silence start
      if e ≤ start then
        let e2 := min (start + maxSeg) audioLen
        if e2 ≤ start then []
        else (start, e2) :: splitWalkCutsAux audioLen minSeg maxSeg silence fuel e2
      else (start, e) :: splitWalkCutsAux audioLen minSeg maxSeg silence fuel e
    else []

/-- Padded segments returned by `_split_on_silence` (lines 263-286): each cut
range is expanded by `pad` on both sides and clamped to the buffer bounds. -/
def splitOnSilenceWalk (audioLen minSeg maxSeg pad : ℕ) (silence : List (ℕ × ℕ))
    (start : ℕ) : List (ℕ × ℕ) :=
  if _h : start < audioLen then
    let e := stepEnd audioLen minSeg maxSeg silence start
    if _h2 : e ≤ start then
      let e2 := min (start + maxSeg) audioLen
      if _h3 : e2 ≤ start then []
      else (start - pad, min audioLen (e2 + pad)) ::
        splitOnSilenceWalk audioLen minSeg maxSeg pad silence e2
    else (start - pad, min audioLen (e + pad)) ::
      splitOnSilenceWalk audioLen minSeg maxSeg pad silence e
  else []
termination_by audioLen - start
decreasing_by
  · omega
  · omega

/-- Qualifying midpoints of one walk iteration, in source order: the midpoints
that pass the guards of the cut-selection loop (`mid > start`,
`mid - start >= min_seg`, `mid <= target_end`). -/
def qualifyingMids (silence : List (ℕ × ℕ)) (start minSeg targetEnd : ℕ) : List ℕ :=
  match silence with
  | [] => []
  | (sStart, sEnd) :: rest =>
    let mid := (sStart + sEnd) / 2
    if start < mid ∧ minSeg ≤ mid - start ∧ mid ≤ targetEnd then
      mid :: qualifyingMids rest start minSeg targetEnd
    else qualifyingMids rest start minSeg targetEnd

/-- Modelled from the spec wording of the cut rule: midpoints that lie
strictly after `start + min_segment_duration` and at or before the target
end. This is the spec-side variant to be compared with `qualifyingMids`,
which uses the source's at-or-after guard. -/
def strictQualifyingMids (silence : List (ℕ × ℕ)) (start minSeg targetEnd : ℕ) : List ℕ :=
  match silence with
  | [] => []
  | (sStart, sEnd) :: rest =>
    let mid := (sStart + sEnd) / 2
    if start + minSeg < mid ∧ mid ≤ targetEnd then
      mid :: strictQualifyingMids rest start minSeg targetEnd
    else strictQualifyingMids rest start minSeg targetEnd

/-- Contiguous exact coverage of the half-open range `[start, stop)` by a list
of half-open ranges: the first starts at `start`, each range is non-trivial and
ends where the next begins, and the last ends at `stop`. -/
def coversRange (start stop : ℕ) : List (ℕ × ℕ) → Prop
  | [] => start = stop
  | (a, b) :: rest => a = start ∧ start < b ∧ coversRange b stop rest

/-! ## Post-processing client (`postprocess.py`) -/

/-- Configuration fields of `PostprocessConfig` (postprocess.py lines 20-26)
used by the precheck and endpoint logic (the timeout plays no role in the
claims under verification). -/
structure PostprocessConfig where
  enabled : Bool
  base_url : String
  model : String
  system_prompt : String
  deriving DecidableEq

/-- Python `str.strip()` on whitespace, written on the character list so that
it evaluates by kernel reduction (Lean's `String.trim` agrees on such input
but is defined through non-reducing byte automata). -/
def pyStrip (s : String) : String :=
  ⟨((s.data.dropWhile Char.isWhitespace).reverse.dropWhile Char.isWhitespace).reverse⟩

/-- Python `str.rstrip("/")`. -/
def rstripSlashes (s : String) : String :=
  ⟨(s.data.reverse.dropWhile (· = '/')).reverse⟩

/-- Python `str.endswith`. -/
def pyEndsWith (s tail : String) : Bool :=
  decide (s.data.drop (s.data.length - tail.data.length) = tail.data)

/-- Endpoint construction `_build_chat_completions_url` (postprocess.py lines
58-67): strip surrounding whitespace, fail on an empty result, strip trailing
slashes, then append the conventional path unless the base already ends in it
(`Except.error` models the `RuntimeError`). -/
def buildChatCompletionsUrl (base_url : String) : Except String String :=
  let base := pyStrip base_url
  if base = "" then .error "Post-processing base URL is empty."
  else
    let base := rstripSlashes base
    if pyEndsWith base "/v1/chat/completions" then .ok base
    else if pyEndsWith base "/v1" then .ok (base ++ "/chat/completions")
    else .ok (base ++ "/v1/chat/completions")

/-- Modelled from the spec: the endpoint URL is "built by trimming whitespace
and trailing slashes and then: returning the base unchanged if it already ends
in /v1/chat/completions; appending /chat/completions if it ends in /v1; and
appending /v1/chat/completions otherwise". -/
def specChatCompletionsUrl (base_url : String) : String :=
  let base := rstripSlashes (pyStrip base_url)
  if pyEndsWith base "/v1/chat/completions" then base
  else if pyEndsWith base "/v1" then base ++ "/chat/completions"
  else base ++ "/v1/chat/completions"

/-- Outcome of the pre-network portion of `postprocess_text`. -/
inductive PpOutcome where
  | returned (text : String)
  | failed (msg : String)
  | request (url : String)
  deriving DecidableEq

/-- Predicate singling out the raising outcomes of the precheck. -/
def PpOutcome.isFailed : PpOutcome → Bool
  | .failed _ => true
  | _ => false

/-- Front of `postprocess_text` (postprocess.py lines 29-37): the disabled
early-return of the unchanged input, the credential check (`api_key` is the
result of the Keychain lookup, `none` when the lookup fails or the stored
value is empty, and Python's `not api_key` is also true for an empty string),
the model-name check, and the endpoint construction. The HTTP exchange that
follows is represented by `request` and is outside the claims' scope. -/
def postprocessPrecheck (text : String) (config : PostprocessConfig)
    (api_key : Option String) : PpOutcome :=
  if !config.enabled then .returned text
  else
    match api_key with
    | none => .failed "Post-processing API key is not configured in Keychain."
    | some k =>
      if k.isEmpty then .failed "Post-processing API key is not configured in Keychain."
      else if config.model.isEmpty then .failed "Post-processing model is not configured."
      else
        match buildChatCompletionsUrl config.base_url with
        | .error msg => .failed msg
        | .ok url => .request url

/-! ## Transcript persistence (`transcription.py`, `app.py`) -/

/-- The persisted transcript payload of `write_transcript_json`
(transcription.py lines 166-184). -/
structure TranscriptRecord where
  id : String
  text : String
  original_text : String
  polished_text : String
  deriving DecidableEq

/-- `write_transcript_json` (transcription.py lines 166-184): the JSON payload
written next to the audio artifact; Python's `original_text or ""` and
`polished_text or ""` map `None` (and keep the empty string) to `""`. -/
def write_transcript_json (stem text : String)
    (original_text polished_text : Option String) : TranscriptRecord :=
  { id := stem
    text := text
    original_text := original_text.getD ""
    polished_text := polished_text.getD "" }

/-- Post-processing and persistence tail of `DictateApp._transcribe_and_paste`
(app.py lines 1441-1454): the raw transcript is kept as `original_text` and
`polished_text` starts empty; when the raw text is non-empty and
post-processing is enabled, the rewrite outcome (`Except` models the
`try/except` around `postprocess_text`) replaces `text` and `polished_text` on
success and is logged and dropped on failure; the record is then persisted via
`write_transcript_json`. -/
def persistTranscript (raw : String) (postprocessEnabled : Bool)
    (rewrite : Except String String) (stem : String) : TranscriptRecord :=
  let original_text := raw
  let (text, polished_text) :=
    if !raw.isEmpty && postprocessEnabled then
      match rewrite with
      | .ok t => (t, t)
      | .error _ => (raw, "")
    else (raw, "")
  write_transcript_json stem text (some original_text) (some polished_text)

/-! ## Audio capture (`audio_capture.py`) -/

/-- Mutable state of `AudioCapture`: the `_active` flag, the recorder handle
(`_recorder`, opaque) and `_current_path`, the path of the most recent
recording (absent until the first start). -/
structure AudioCaptureState where
  active : Bool
  recorder : Option Unit
  current_path : Option String
  deriving DecidableEq

/-- Outcomes of the AVFoundation recorder construction performed by `start`
(audio_capture.py lines 47-59), each failure branch raising its own error. -/
inductive RecorderInit where
  | initError (msg : String)
  | initNil
  | prepareFailed
  | recordFailed
  | succeeded
  deriving DecidableEq

/-- `AudioCapture.start` (audio_capture.py lines 31-62): raises immediately
when a recording is already active; otherwise records the new timestamp-named
path in `_current_path` (this happens before the recorder is created, so the
path survives a failed start), then creates and starts the OS recorder, and on
success marks the capture active and returns the new path. The result pairs
the post-call state with the raised-or-returned outcome. -/
def AudioCapture.start (s : AudioCaptureState) (newPath : String)
    (init : RecorderInit) : AudioCaptureState × Except String String :=
  if s.active then (s, .error "Recording already active.")
  else
    let s := { s with current_path := some newPath }
    match init with
    | .initError msg => (s, .error ("Failed to create recorder: " ++ msg))
    | .initNil => (s, .error "Failed to create recorder.")
    | .prepareFailed => (s, .error "Recorder prepareToRecord failed.")
    | .recordFailed => (s, .error "Recorder start failed.")
    | .succeeded => ({ s with recorder := some (), active := true }, .ok newPath)

/-- `AudioCapture.stop` (audio_capture.py lines 64-69): when no recording is
active (or no recorder exists) it just returns `_current_path`; otherwise it
stops the recorder, clears the active flag and returns the path. The method
has no raising branch. -/
def AudioCapture.stop (s : AudioCaptureState) : AudioCaptureState × Option String :=
  if !s.active || s.recorder == none then (s, s.current_path)
  else ({ s with active := false }, s.current_path)

/-! ## Model idle unload (`app.py`) -/

/-- Snapshot of the `DictateApp` fields read by the idle-unload machinery:
`_model_idle_seconds` (an integer number of seconds, 0 meaning disabled),
`_last_model_use` and the current monotonic clock reading (seconds),
`_last_model_id`, `_recording`, `_transcribing_count` (the `transcribing`
property is `_transcribing_count > 0`), `_model_loading`, and the configured
`current_model_id`. -/
structure IdleState where
  model_idle_seconds : ℤ
  last_model_use : ℚ
  now : ℚ
  last_model_id : Option String
  recording : Bool
  transcribing_count : ℕ
  model_loading : Bool
  current_model_id : String

/-- Decision taken by the idle-timeout handler. -/
inductive IdleAction where
  | unload
  | reschedule
  | keep
  deriving DecidableEq

/-- `DictateApp._schedule_model_unload` (app.py lines 1303-1316): any existing
timer is cancelled, and a new single-shot timer is started only when the
configured idle threshold is positive; the result is whether a timer was
started. -/
def scheduleModelUnload (model_idle_seconds : ℤ) : Bool :=
  if model_idle_seconds ≤ 0 then false else true

/-- `DictateApp._handle_model_idle_timeout` (app.py lines 1318-1339) as a
decision function over a state snapshot: return immediately when the threshold
is not positive or no model was ever used; reschedule when the model was used
too recently, when a recording, transcription or load is in progress, or when
the configured model changed; otherwise unload. -/
def handleModelIdleTimeout (s : IdleState) : IdleAction :=
  if s.model_idle_seconds ≤ 0 then .keep
  else
    match s.last_model_id with
    | none => .keep
    | some lastId =>
      if s.now - s.last_model_use < (s.model_idle_seconds : ℚ) then .reschedule
      else if s.recording || decide (0 < s.transcribing_count) || s.model_loading then
        .reschedule
      else if lastId ≠ s.current_model_id then .reschedule
      else .unload

/-! ## In-flight transcription counter (`app.py`) -/

/-- The two counter operations of `DictateApp._increment_transcribing` and
`DictateApp._decrement_transcribing`. -/
inductive CounterOp where
  | inc
  | dec
  deriving DecidableEq

/-- One counter operation (app.py lines 1286-1295) over ℤ, so that "never
negative" is a meaningful statement: the increment is unconditional, the
decrement only fires while the counter is positive. -/
def applyCounterOp (c : ℤ) : CounterOp → ℤ
  | .inc => c + 1
  | .dec => if 0 < c then c - 1 else c

/-- A sequence of counter operations applied in order. -/
def applyCounterOps (c : ℤ) : List CounterOp → ℤ
  | [] => c
  | op :: rest => applyCounterOps (applyCounterOp c op) rest

/-- Counter operations performed by one complete `_transcribe_and_paste` run
(app.py lines 1421-1461): exactly one increment on entry and exactly one
decrement in the `finally` block, whether or not the body raised. -/
def transcribeRunOps (_bodyRaised : Bool) : List CounterOp :=
  [CounterOp.inc, CounterOp.dec]

/-- Number of increments in a trace. -/
def countInc : List CounterOp → ℕ
  | [] => 0
  | .inc :: rest => countInc rest + 1
  | .dec :: rest => countInc rest

/-- Number of decrements in a trace. -/
def countDec : List CounterOp → ℕ
  | [] => 0
  | .inc :: rest => countDec rest
  | .dec :: rest => countDec rest + 1

/-- Decidable well-formedness of a trace started at counter value `c`: every
decrement happens while the counter is positive. Any interleaving of complete
runs has this shape starting from 0, because each run's decrement is preceded
by that run's own increment. -/
def noUnderflow (c : ℤ) : List CounterOp → Bool
  | [] => true
  | .inc :: rest => noUnderflow (c + 1) rest
  | .dec :: rest => decide (0 < c) && noUnderflow (c - 1) rest

/-! ## Fn double-tap detection (`hotkeys.py`) -/

/-- Double-tap state of `HotkeyManager`: `_fn_down` and `_fn_last_press`
(a monotonic-clock reading in seconds, `0.0` initially). -/
structure FnTapState where
  fn_down : Bool
  fn_last_press : ℚ

/-- The double-tap window `FN_DOUBLE_TAP_SECONDS = 0.2` (hotkeys.py line 20). -/
def fnDoubleTapSeconds : ℚ := 1 / 5

/-- Fn-only branch of `HotkeyManager._event_callback` (hotkeys.py lines
105-117) for one flags-changed event at monotonic time `now` whose Fn bit is
`fnNow`: on a press (Fn newly down), fire the toggle and clear the timestamp
when the press lands within the window of the remembered one, otherwise just
arm the timer with the current time; on a release only clear `_fn_down`. The
result pairs the new state with whether the toggle callback was invoked. -/
def fnTapStep (s : FnTapState) (now : ℚ) (fnNow : Bool) : FnTapState × Bool :=
  if fnNow && !s.fn_down then
    if now - s.fn_last_press ≤ fnDoubleTapSeconds then
      ({ fn_down := true, fn_last_press := 0 }, true)
    else
      ({ fn_down := true, fn_last_press := now }, false)
  else if !fnNow && s.fn_down then
    ({ s with fn_down := false }, false)
  else (s, false)

/-- A run of flags-changed events through `fnTapStep`, counting toggle
invocations. -/
def fnTapRun (s : FnTapState) : List (ℚ × Bool) → FnTapState × ℕ
  | [] => (s, 0)
  | (now, fnNow) :: rest =>
    let step := fnTapStep s now fnNow
    let tail := fnTapRun step.1 rest
    (tail.1, (if step.2 then 1 else 0) + tail.2)

theorem intTrunc_natCast (n : ℕ) (q : ℚ) (h : q = (n : ℚ)) : intTrunc q = n := by
  subst h
  simp only [intTrunc]
  rw [if_pos (by positivity)]
  simp

theorem splitWalkCutsAux_eq (audioLen minSeg maxSeg : ℕ) (silence : List (ℕ × ℕ)) :
    ∀ fuel start, audioLen ≤ fuel + start →
      splitWalkCutsAux audioLen minSeg maxSeg silence fuel start =
        splitWalkCuts audioLen minSeg maxSeg silence start := by
  intro fuel
  induction fuel with
  | zero =>
    intro start h
    rw [splitWalkCuts]
    simp only [splitWalkCutsAux]
    rw [dif_neg (by omega)]
  | succ f ih =>
    intro start h
    rw [splitWalkCuts]
    simp only [splitWalkCutsAux]
    by_cases h1 : start < audioLen
    · rw [if_pos h1, dif_pos h1]
      by_cases h2 : stepEnd audioLen minSeg maxSeg silence start ≤ start
      · rw [if_pos h2, dif_pos h2]
        by_cases h3 : min (start + maxSeg) audioLen ≤ start
        · rw [if_pos h3, dif_pos h3]
        · rw [if_neg h3, dif_neg h3, ih (min (start + maxSeg) audioLen) (by omega)]
      · rw [if_neg h2, dif_neg h2, ih (stepEnd audioLen minSeg maxSeg silence start) (by omega)]
    · rw [if_neg h1, dif_neg h1]

/-- The padded walk is the padding image of the unpadded cut walk. -/
theorem splitOnSilenceWalk_eq_map (audioLen minSeg maxSeg pad : ℕ)
    (silence : List (ℕ × ℕ)) (start : ℕ) :
    splitOnSilenceWalk audioLen minSeg maxSeg pad silence start =
      (splitWalkCuts audioLen minSeg maxSeg silence start).map
        (fun se => (se.1 - pad, min audioLen (se.2 + pad))) := by
  induction start using splitWalkCuts.induct audioLen minSeg maxSeg silence with
  | case1 start h e h2 e2 h3 =>
    rw [splitOnSilenceWalk, splitWalkCuts]
    simp only [dif_pos h, dif_pos h2, dif_pos h3, List.map_nil]
  | case2 start h e h2 e2 h3 ih =>
    rw [splitOnSilenceWalk, splitWalkCuts]
    simp only [dif_pos h, dif_pos h2, dif_neg h3, List.map_cons, ih]
  | case3 start h e h2 ih =>
    rw [splitOnSilenceWalk, splitWalkCuts]
    simp only [dif_pos h, dif_neg h2, List.map_cons, ih]
  | case4 start h =>
    rw [splitOnSilenceWalk, splitWalkCuts]
    simp only [dif_neg h, List.map_nil]

theorem chooseCut_some (start minSeg targetEnd : ℕ) (silence : List (ℕ × ℕ)) :
    ∀ acc : Option ℕ, (∀ x, acc = some x → start < x ∧ x ≤ targetEnd) →
      ∀ c, chooseCut silence start minSeg targetEnd acc = some c →
        start < c ∧ c ≤ targetEnd := by
  induction silence with
  | nil => intro acc hacc c hc; exact hacc c hc
  | cons p rest ih =>
    intro acc hacc c hc
    obtain ⟨sStart, sEnd⟩ := p
    simp only [chooseCut] at hc
    split_ifs at hc with h1 h2 h3
    · exact ih acc hacc c hc
    · exact ih acc hacc c hc
    · exact hacc c hc
    · refine ih _ ?_ c hc
      intro x hx
      obtain rfl : (sStart + sEnd) / 2 = x := by injection hx
      omega

theorem stepEnd_le (audioLen minSeg maxSeg : ℕ) (silence : List (ℕ × ℕ)) (start : ℕ) :
    stepEnd audioLen minSeg maxSeg silence start ≤ min (start + maxSeg) audioLen := by
  simp only [stepEnd]
  cases hc : chooseCut silence start minSeg (min (start + maxSeg) audioLen) none with
  | none => exact le_refl _
  | some c =>
    exact (chooseCut_some start minSeg _ silence none (by intro x hx; cases hx) c hc).2

theorem lt_stepEnd (audioLen minSeg maxSeg : ℕ) (silence : List (ℕ × ℕ)) (start : ℕ)
    (h : start < audioLen) (hmax : 1 ≤ maxSeg) :
    start < stepEnd audioLen minSeg maxSeg silence start := by
  simp only [stepEnd]
  cases hc : chooseCut silence start minSeg (min (start + maxSeg) audioLen) none with
  | none =>
    show start < min (start + maxSeg) audioLen
    omega
  | some c =>
    exact (chooseCut_some start minSeg _ silence none (by intro x hx; cases hx) c hc).1

theorem splitWalkCuts_covers (audioLen minSeg maxSeg : ℕ) (silence : List (ℕ × ℕ))
    (hmax : 1 ≤ maxSeg) :
    ∀ start, start ≤ audioLen →
      coversRange start audioLen (splitWalkCuts audioLen minSeg maxSeg silence start) := by
  intro start
  induction start using splitWalkCuts.induct audioLen minSeg maxSeg silence with
  | case1 start h e h2 e2 h3 =>
    intro _
    have he2 : e2 = min (start + maxSeg) audioLen := rfl
    omega
  | case2 start h e h2 e2 h3 ih =>
    intro _
    have he2 : e2 = min (start + maxSeg) audioLen := rfl
    rw [splitWalkCuts]
    simp only [dif_pos h, dif_pos h2, dif_neg h3]
    exact ⟨rfl, by omega, ih (by omega)⟩
  | case3 start h e h2 ih =>
    intro _
    have he : e = stepEnd audioLen minSeg maxSeg silence start := rfl
    have hle := stepEnd_le audioLen minSeg maxSeg silence start
    rw [splitWalkCuts]
    simp only [dif_pos h, dif_neg h2]
    exact ⟨rfl, by omega, ih (by omega)⟩
  | case4 start h =>
    intro hs
    rw [splitWalkCuts]
    simp only [dif_neg h]
    show start = audioLen
    omega

theorem splitWalkCuts_len_le (audioLen minSeg maxSeg : ℕ) (silence : List (ℕ × ℕ)) :
    ∀ start, ∀ se ∈ splitWalkCuts audioLen minSeg maxSeg silence start,
      se.2 - se.1 ≤ maxSeg := by
  intro start
  induction start using splitWalkCuts.induct audioLen minSeg maxSeg silence with
  | case1 start h e h2 e2 h3 =>
    rw [splitWalkCuts]
    simp only [dif_pos h, dif_pos h2, dif_pos h3]
    intro se hse
    cases hse
  | case2 start h e h2 e2 h3 ih =>
    have he2 : e2 = min (start + maxSeg) audioLen := rfl
    rw [splitWalkCuts]
    simp only [dif_pos h, dif_pos h2, dif_neg h3]
    intro se hse
    rcases List.mem_cons.mp hse with rfl | hmem
    · simp only []
      omega
    · exact ih se hmem
  | case3 start h e h2 ih =>
    have he : e = stepEnd audioLen minSeg maxSeg silence start := rfl
    have hle := stepEnd_le audioLen minSeg maxSeg silence start
    rw [splitWalkCuts]
    simp only [dif_pos h, dif_neg h2]
    intro se hse
    rcases List.mem_cons.mp hse with rfl | hmem
    · simp only []
      omega
    · exact ih se hmem
  | case4 start h =>
    rw [splitWalkCuts]
    simp only [dif_neg h]
    intro se hse
    cases hse

theorem getLast?_cons_or (a : ℕ) (l : List ℕ) :
    (a :: l).getLast? = l.getLast?.or (some a) := by
  induction l generalizing a with
  | nil => rfl
  | cons b l ih =>
    rw [List.getLast?_cons_cons, ih b]
    cases l.getLast? <;> rfl

theorem qualifyingMids_eq_nil (start minSeg targetEnd : ℕ) (silence : List (ℕ × ℕ)) :
    (∀ m ∈ runMidpoints silence, targetEnd < m) →
      qualifyingMids silence start minSeg targetEnd = [] := by
  induction silence with
  | nil => intro _; rfl
  | cons p rest ih =>
    intro h
    obtain ⟨sStart, sEnd⟩ := p
    have hmids : runMidpoints ((sStart, sEnd) :: rest) =
        (sStart + sEnd) / 2 :: runMidpoints rest := rfl
    rw [hmids] at h
    have h0 := h ((sStart + sEnd) / 2) (List.mem_cons_self _ _)
    simp only [qualifyingMids]
    rw [if_neg (by omega)]
    exact ih fun m hm => h m (List.mem_cons_of_mem _ hm)

theorem chooseCut_eq_getLast (start minSeg targetEnd : ℕ) (silence : List (ℕ × ℕ)) :
    (runMidpoints silence).Pairwise (· < ·) →
      ∀ acc, chooseCut silence start minSeg targetEnd acc =
        ((qualifyingMids silence start minSeg targetEnd).getLast?).or acc := by
  induction silence with
  | nil => intro _ acc; rfl
  | cons p rest ih =>
    intro hs acc
    obtain ⟨sStart, sEnd⟩ := p
    have hmids : runMidpoints ((sStart, sEnd) :: rest) =
        (sStart + sEnd) / 2 :: runMidpoints rest := rfl
    rw [hmids] at hs
    have hs' := (List.pairwise_cons.mp hs).2
    have hlt := (List.pairwise_cons.mp hs).1
    simp only [chooseCut, qualifyingMids]
    by_cases h1 : (sStart + sEnd) / 2 ≤ start
    · rw [if_pos h1, if_neg (by omega)]
      exact ih hs' acc
    · rw [if_neg h1]
      by_cases h2 : (sStart + sEnd) / 2 - start < minSeg
      · rw [if_pos h2, if_neg (by omega)]
        exact ih hs' acc
      · rw [if_neg h2]
        by_cases h3 : targetEnd < (sStart + sEnd) / 2
        · rw [if_pos h3, if_neg (by omega)]
          rw [qualifyingMids_eq_nil start minSeg targetEnd rest
            (fun m hm => lt_trans h3 (hlt m hm))]
          rfl
        · rw [if_neg h3, if_pos (by omega)]
          rw [ih hs' (some ((sStart + sEnd) / 2)), getLast?_cons_or]
          cases (qualifyingMids rest start minSeg targetEnd).getLast? <;> rfl

/-- C2: for every non-empty input buffer and every silence-run list, with the
positive segment-size bound the source always derives (`max_seg >= min_seg >= 1`,
or `max_seg = audio_len > 0` when unbounded), the unpadded cut ranges produced
by the segmenter walk are contiguous and exactly cover `[0, audio_len)`: the
first starts at 0, each range ends where the next begins, and the last ends at
the buffer length. -/
theorem segmenter_cuts_cover_range (audioLen minSeg maxSeg : ℕ) (silence : List (ℕ × ℕ))
    (hmax : 1 ≤ maxSeg) (_hlen : 0 < audioLen) :
    coversRange 0 audioLen (splitWalkCuts audioLen minSeg maxSeg silence 0) :=
  splitWalkCuts_covers audioLen minSeg maxSeg silence hmax 0 (Nat.zero_le _)

theorem segmenter_cuts_cover_range_witness :
    1 ≤ 5 ∧ 0 < 10 ∧ coversRange 0 10 (splitWalkCuts 10 3 5 [(2, 9)] 0) :=
  ⟨by decide, by decide, segmenter_cuts_cover_range 10 3 5 [(2, 9)] (by decide) (by decide)⟩

/-- C3 (amended): in each iteration of the segmenter walk, when the silence-run
midpoints are strictly increasing (which holds for the disjoint, ordered runs
the detector produces), the segment end is the latest silence-run midpoint
lying at least `min_seg` after `start` (`mid - start >= min_seg`, i.e. at or
after `start + min_seg`) and at or before the target end
`min (start + max_seg) audio_len`; if no midpoint qualifies, the end is the
target end. -/
theorem segmenter_cut_choice (audioLen minSeg maxSeg start : ℕ) (silence : List (ℕ × ℕ))
    (hsorted : (runMidpoints silence).Pairwise (· < ·)) :
    stepEnd audioLen minSeg maxSeg silence start =
      ((qualifyingMids silence start minSeg (min (start + maxSeg) audioLen)).getLast?).getD
        (min (start + maxSeg) audioLen) := by
  simp only [stepEnd]
  rw [chooseCut_eq_getLast start minSeg (min (start + maxSeg) audioLen) silence hsorted none]
  cases (qualifyingMids silence start minSeg (min (start + maxSeg) audioLen)).getLast? <;> rfl

theorem segmenter_cut_choice_witness :
    (runMidpoints [(0, 4), (10, 20)]).Pairwise (· < ·) ∧
    stepEnd 30 2 50 [(0, 4), (10, 20)] 0 =
      ((qualifyingMids [(0, 4), (10, 20)] 0 2 (min (0 + 50) 30)).getLast?).getD
        (min (0 + 50) 30) :=
  ⟨by decide, segmenter_cut_choice 30 2 50 0 [(0, 4), (10, 20)] (by decide)⟩

/-- C3 counterexample: with the single silence run `(5, 15)` (midpoint 10),
`start = 0`, `min_seg = 10`, `max_seg = 200` and a 100-sample buffer, the code
cuts at 10, yet no midpoint lies strictly after `start + min_seg = 10`, so the
claim as stated requires the cut to be at the target end 100: the code's cut
differs from it. -/
theorem segmenter_cut_choice_cex :
    stepEnd 100 10 200 [(5, 15)] 0 = 10 ∧
    strictQualifyingMids [(5, 15)] 0 10 (min (0 + 200) 100) = [] ∧
    stepEnd 100 10 200 [(5, 15)] 0 ≠ min (0 + 200) 100 := by decide

/-- C7: with `max_segment_seconds = 2.0` and `sample_rate_hz = 16000` (and a
minimum-segment parameter not exceeding the 32,000-sample bound, as with the
source's defaults), every unpadded cut range of the segmenter walk is at most
32,000 samples long, for every input buffer and silence-run list. -/
theorem segmenter_unpadded_bound (minSegSec padSec : ℚ) (audioLen : ℕ)
    (silence : List (ℕ × ℕ)) (minSeg maxSeg pad : ℕ)
    (hp : splitParams 16000 minSegSec 2 padSec audioLen = (minSeg, maxSeg, pad))
    (hm : minSeg ≤ 32000) (se : ℕ × ℕ)
    (hmem : se ∈ splitWalkCuts audioLen minSeg maxSeg silence 0) :
    se.2 - se.1 ≤ 32000 := by
  have hI : intTrunc ((2 : ℚ) * ((16000 : ℕ) : ℚ)) = 32000 := intTrunc_natCast 32000 _ (by norm_num)
  simp only [splitParams] at hp
  rw [if_pos (by norm_num : (0 : ℚ) < 2), hI] at hp
  injection hp with h1 hp'
  injection hp' with h2 h3
  have hmax : maxSeg = 32000 := by omega
  have := splitWalkCuts_len_le audioLen minSeg maxSeg silence 0 se hmem
  omega

set_option maxRecDepth 4000 in
theorem segmenter_unpadded_bound_witness :
    splitParams 16000 1 2 (3 / 20 : ℚ) 160000 = (16000, 32000, 2400) ∧
    16000 ≤ 32000 ∧
    silenceSamples 320 160000 (silenceRegions 25 (List.replicate 500 true)) = [(0, 160000)] ∧
    (0, 32000) ∈ splitWalkCuts 160000 16000 32000 [(0, 160000)] 0 ∧
    (0, 32000).2 - (0, 32000).1 ≤ 32000 := by
  have hmem : (0, 32000) ∈ splitWalkCuts 160000 16000 32000 [(0, 160000)] 0 := by
    rw [← splitWalkCutsAux_eq 160000 16000 32000 [(0, 160000)] 160000 0 (by decide)]
    decide
  have hp : splitParams 16000 1 2 (3 / 20 : ℚ) 160000 = (16000, 32000, 2400) := by
    have h1 : intTrunc ((1 : ℚ) * ((16000 : ℕ) : ℚ)) = 16000 :=
      intTrunc_natCast 16000 _ (by norm_num)
    have h2 : intTrunc ((2 : ℚ) * ((16000 : ℕ) : ℚ)) = 32000 :=
      intTrunc_natCast 32000 _ (by norm_num)
    have h3 : intTrunc ((3 / 20 : ℚ) * ((16000 : ℕ) : ℚ)) = 2400 :=
      intTrunc_natCast 2400 _ (by norm_num)
    simp only [splitParams, h1, h2, h3]
    rw [if_pos (by norm_num : (0 : ℚ) < 2)]
    decide
  exact ⟨hp, by decide, by decide, hmem,
    segmenter_unpadded_bound 1 (3 / 20) 160000 [(0, 160000)] 16000 32000 2400
      hp (by decide) (0, 32000) hmem⟩

/-- C8 (amended): for every base URL that is non-empty after whitespace
trimming, the endpoint is exactly the spec's three-case construction; a
whitespace-only base URL instead raises, which is the one case the claim as
stated misses. -/
theorem chat_completions_url_spec (base_url : String) (h : pyStrip base_url ≠ "") :
    buildChatCompletionsUrl base_url = .ok (specChatCompletionsUrl base_url) := by
  simp only [buildChatCompletionsUrl, specChatCompletionsUrl]
  rw [if_neg h]
  split_ifs <;> rfl

theorem chat_completions_url_spec_witness :
    pyStrip "https://api.openai.com" ≠ "" ∧
    buildChatCompletionsUrl "https://api.openai.com" =
      .ok (specChatCompletionsUrl "https://api.openai.com") :=
  ⟨by decide, chat_completions_url_spec "https://api.openai.com" (by decide)⟩

/-- C8 counterexample: the whitespace-only base URL `" "` is a non-empty
string, yet the code raises instead of building an endpoint URL. -/
theorem chat_completions_url_cex :
    " " ≠ "" ∧
    buildChatCompletionsUrl " " = .error "Post-processing base URL is empty." := by
  constructor
  · decide
  · rfl

/-- C5 (amended): when post-processing is disabled the rewrite returns its
input unchanged (it does not fail); when enabled, it fails whenever no API
credential is configured (a missing or empty Keychain entry) and whenever no
target model name is configured. -/
theorem postprocess_precheck_contract (text : String) (config : PostprocessConfig)
    (api_key : Option String) :
    (config.enabled = false → postprocessPrecheck text config api_key = .returned text) ∧
    (config.enabled = true → (api_key = none ∨ api_key = some "") →
      (postprocessPrecheck text config api_key).isFailed = true) ∧
    (config.enabled = true → config.model = "" →
      (postprocessPrecheck text config api_key).isFailed = true) := by
  have h0 : "".isEmpty = true := rfl
  refine ⟨?_, ?_, ?_⟩
  · intro h
    simp [postprocessPrecheck, h]
  · intro h hk
    rcases hk with rfl | rfl
    · simp [postprocessPrecheck, h, PpOutcome.isFailed]
    · simp [postprocessPrecheck, h, h0, PpOutcome.isFailed]
  · intro h hm
    cases api_key with
    | none => simp [postprocessPrecheck, h, PpOutcome.isFailed]
    | some k =>
      by_cases hk : k.isEmpty
      · simp [postprocessPrecheck, h, hk, PpOutcome.isFailed]
      · simp [postprocessPrecheck, h, hk, hm, h0, PpOutcome.isFailed]

theorem postprocess_precheck_contract_witness :
    postprocessPrecheck "hi" ⟨false, "https://api.openai.com", "gpt-4o-mini", "p"⟩ (some "k") =
      .returned "hi" ∧
    (postprocessPrecheck "hi" ⟨true, "https://api.openai.com", "gpt-4o-mini", "p"⟩ none).isFailed =
      true ∧
    (postprocessPrecheck "hi" ⟨true, "https://api.openai.com", "", "p"⟩ (some "k")).isFailed =
      true :=
  ⟨(postprocess_precheck_contract "hi" _ (some "k")).1 rfl,
    (postprocess_precheck_contract "hi" _ none).2.1 rfl (Or.inl rfl),
    (postprocess_precheck_contract "hi" _ (some "k")).2.2 rfl rfl⟩

/-- C5 counterexample: with post-processing disabled, the rewrite returns the
input text unchanged instead of failing as the claim states. -/
theorem postprocess_precheck_cex :
    postprocessPrecheck "hello" ⟨false, "https://api.openai.com", "gpt-4o-mini", "p"⟩
      (some "key") = .returned "hello" ∧
    (postprocessPrecheck "hello" ⟨false, "https://api.openai.com", "gpt-4o-mini", "p"⟩
      (some "key")).isFailed = false :=
  ⟨rfl, rfl⟩

/-- C1: whenever the rewrite call raises (an `Except.error` outcome), the
persisted record has `text` equal to `original_text`, both equal to the raw
transcript, and an empty `polished_text`: a post-processing failure never
discards the raw transcript. -/
theorem postprocess_failure_keeps_raw (raw stem msg : String) (enabled : Bool) :
    (persistTranscript raw enabled (.error msg) stem).text = raw ∧
    (persistTranscript raw enabled (.error msg) stem).original_text = raw ∧
    (persistTranscript raw enabled (.error msg) stem).polished_text = "" := by
  cases h : (!raw.isEmpty && enabled) <;>
    simp [persistTranscript, write_transcript_json, h]

/-- C9: `start` fails (leaving the state untouched) whenever a recording is
already active, regardless of how the OS recorder would behave; `stop` while
inactive returns the last recording's path without error and without changing
state; and a second `stop` immediately after any `stop` returns the same
path. -/
theorem audio_capture_start_stop (s : AudioCaptureState) (newPath : String)
    (init : RecorderInit) :
    (s.active = true →
      AudioCapture.start s newPath init = (s, .error "Recording already active.")) ∧
    (s.active = false → AudioCapture.stop s = (s, s.current_path)) ∧
    (AudioCapture.stop (AudioCapture.stop s).1).2 = (AudioCapture.stop s).2 := by
  refine ⟨?_, ?_, ?_⟩
  · intro h
    simp [AudioCapture.start, h]
  · intro h
    simp [AudioCapture.stop, h]
  · by_cases h : s.active
    · cases hr : s.recorder with
      | none => simp [AudioCapture.stop, h, hr]
      | some u => simp [AudioCapture.stop, h, hr]
    · simp [AudioCapture.stop, h]

theorem audio_capture_start_stop_witness :
    AudioCapture.start ⟨true, some (), some "recording_1.wav"⟩ "recording_2.wav"
        RecorderInit.succeeded =
      (⟨true, some (), some "recording_1.wav"⟩, .error "Recording already active.") ∧
    AudioCapture.stop ⟨false, none, some "recording_1.wav"⟩ =
      (⟨false, none, some "recording_1.wav"⟩, some "recording_1.wav") ∧
    (AudioCapture.stop
        (AudioCapture.stop ⟨true, some (), some "recording_1.wav"⟩).1).2 =
      (AudioCapture.stop ⟨true, some (), some "recording_1.wav"⟩).2 :=
  ⟨(audio_capture_start_stop _ "recording_2.wav" RecorderInit.succeeded).1 rfl,
    (audio_capture_start_stop ⟨false, none, some "recording_1.wav"⟩ "x"
      RecorderInit.succeeded).2.1 rfl,
    (audio_capture_start_stop ⟨true, some (), some "recording_1.wav"⟩ "y"
      RecorderInit.succeeded).2.2⟩

/-- C4: for a positive configured idle threshold, the idle-timeout handler
unloads if and only if the elapsed time since last use is at least the
threshold, no recording, transcription or model load is in progress, and the
last-used model id equals the currently configured one; with threshold 0 the
scheduler never starts an idle timer and the handler never unloads. -/
theorem idle_unload_iff (s : IdleState) :
    (0 < s.model_idle_seconds →
      (handleModelIdleTimeout s = .unload ↔
        (s.model_idle_seconds : ℚ) ≤ s.now - s.last_model_use ∧
        s.recording = false ∧ s.transcribing_count = 0 ∧ s.model_loading = false ∧
        s.last_model_id = some s.current_model_id)) ∧
    (s.model_idle_seconds = 0 →
      scheduleModelUnload s.model_idle_seconds = false ∧
      handleModelIdleTimeout s ≠ .unload) := by
  constructor
  · intro hpos
    cases hid : s.last_model_id with
    | none =>
      have hh : handleModelIdleTimeout s = .keep := by
        simp only [handleModelIdleTimeout, hid]
        rw [if_neg (by omega)]
      rw [hh]
      constructor
      · intro h
        simp at h
      · rintro ⟨-, -, -, -, hc⟩
        exact Option.noConfusion hc
    | some lastId =>
      have hh : handleModelIdleTimeout s =
          if s.now - s.last_model_use < (s.model_idle_seconds : ℚ) then IdleAction.reschedule
          else if s.recording || decide (0 < s.transcribing_count) || s.model_loading then
            IdleAction.reschedule
          else if lastId ≠ s.current_model_id then IdleAction.reschedule
          else IdleAction.unload := by
        simp only [handleModelIdleTimeout, hid]
        rw [if_neg (by omega)]
      rw [hh]
      split_ifs with h1 h2 h3
      · constructor
        · intro h
          simp at h
        · rintro ⟨hc, -, -, -, -⟩
          linarith
      · constructor
        · intro h
          simp at h
        · rintro ⟨-, hr, ht, hl, -⟩
          rw [hr, hl] at h2
          simp at h2
          omega
      · constructor
        · intro h
          simp at h
        · rintro ⟨-, -, -, -, hc⟩
          exact h3 (by injection hc)
      · constructor
        · intro _
          simp only [Bool.or_eq_true, decide_eq_true_eq, not_or, Bool.not_eq_true] at h2
          obtain ⟨⟨hr, hcnt⟩, hl⟩ := h2
          refine ⟨by linarith, hr, by omega, hl, ?_⟩
          rw [not_not.mp h3]
        · intro _
          rfl
  · intro h0
    constructor
    · simp [scheduleModelUnload, h0]
    · simp [handleModelIdleTimeout, h0]

theorem idle_unload_iff_witness :
    handleModelIdleTimeout ⟨60, 0, 120, some "m", false, 0, false, "m"⟩ = .unload ∧
    scheduleModelUnload 0 = false :=
  ⟨((idle_unload_iff ⟨60, 0, 120, some "m", false, 0, false, "m"⟩).1 (by norm_num)).mpr
      ⟨by norm_num, rfl, rfl, rfl, rfl⟩,
    ((idle_unload_iff ⟨0, 0, 120, some "m", false, 0, false, "m"⟩).2 rfl).1⟩

theorem applyCounterOps_of_noUnderflow (t : List CounterOp) :
    ∀ c : ℤ, noUnderflow c t = true →
      applyCounterOps c t = c + (countInc t : ℤ) - (countDec t : ℤ) := by
  induction t with
  | nil =>
    intro c _
    simp [applyCounterOps, countInc, countDec]
  | cons op rest ih =>
    intro c h
    cases op with
    | inc =>
      simp only [noUnderflow] at h
      simp only [applyCounterOps, applyCounterOp, countInc, countDec]
      rw [ih _ h]
      push_cast
      ring
    | dec =>
      simp only [noUnderflow, Bool.and_eq_true, decide_eq_true_eq] at h
      obtain ⟨h0, h'⟩ := h
      simp only [applyCounterOps, applyCounterOp, countInc, countDec]
      rw [if_pos h0, ih _ h']
      push_cast
      ring

/-- C10: every complete transcription run contributes exactly one increment
and one guaranteed decrement; the counter can never become negative, for any
operation sequence whatsoever, because the decrement refuses to drive it below
zero; and any well-formed interleaving of complete runs (each decrement
covered by its run's earlier increment, increments and decrements balanced)
brings the counter back to zero. -/
theorem transcribing_counter_invariant :
    (∀ bodyRaised, transcribeRunOps bodyRaised = [CounterOp.inc, CounterOp.dec]) ∧
    (∀ (c : ℤ) (ops : List CounterOp), 0 ≤ c → 0 ≤ applyCounterOps c ops) ∧
    (∀ t : List CounterOp, noUnderflow 0 t = true → countInc t = countDec t →
      applyCounterOps 0 t = 0) := by
  refine ⟨fun _ => rfl, ?_, ?_⟩
  · intro c ops
    induction ops generalizing c with
    | nil => intro h; simpa [applyCounterOps] using h
    | cons op rest ih =>
      intro h
      cases op with
      | inc =>
        simp only [applyCounterOps, applyCounterOp]
        exact ih (c + 1) (by omega)
      | dec =>
        simp only [applyCounterOps, applyCounterOp]
        by_cases h0 : 0 < c
        · rw [if_pos h0]
          exact ih (c - 1) (by omega)
        · rw [if_neg h0]
          exact ih c h
  · intro t hwf hbal
    rw [applyCounterOps_of_noUnderflow t 0 hwf]
    omega

theorem transcribing_counter_invariant_witness :
    transcribeRunOps true = [CounterOp.inc, CounterOp.dec] ∧
    0 ≤ applyCounterOps 0 [CounterOp.dec, CounterOp.dec, CounterOp.inc] ∧
    applyCounterOps 0 [CounterOp.inc, CounterOp.inc, CounterOp.dec, CounterOp.dec] = 0 :=
  ⟨transcribing_counter_invariant.1 true,
    transcribing_counter_invariant.2.1 0 _ (by decide),
    transcribing_counter_invariant.2.2 _ (by decide) (by decide)⟩

/-- C6: starting from the initial state, with a first press later than the
window (so the zero-initialized timestamp cannot match) and a monotonic clock:
two presses at most 200 ms apart fire the toggle exactly once; two presses
250 ms apart fire zero times; a third press within 200 ms of the second does
not fire again, because the firing press reset the remembered timestamp; and a
press with its release and no second press does nothing. -/
theorem fn_double_tap (t1 t2 t3 r1 r2 : ℚ)
    (h01 : fnDoubleTapSeconds < t1) (h12 : t1 < t2)
    (h21 : t2 - t1 ≤ fnDoubleTapSeconds) (h23 : t2 < t3)
    (_h32 : t3 - t2 ≤ fnDoubleTapSeconds) :
    (fnTapRun ⟨false, 0⟩ [(t1, true), (r1, false), (t2, true)]).2 = 1 ∧
    (fnTapRun ⟨false, 0⟩ [(t1, true), (r1, false), (t1 + 1 / 4, true)]).2 = 0 ∧
    (fnTapRun ⟨false, 0⟩ [(t1, true), (r1, false), (t2, true), (r2, false), (t3, true)]).2 = 1 ∧
    (fnTapRun ⟨false, 0⟩ [(t1, true), (r1, false)]).2 = 0 := by
  have hw : fnDoubleTapSeconds = 1 / 5 := rfl
  have hstep1 : fnTapStep ⟨false, 0⟩ t1 true = (⟨true, t1⟩, false) := by
    simp [fnTapStep]
    exact h01
  have hrel : ∀ lp r, fnTapStep ⟨true, lp⟩ r false = (⟨false, lp⟩, false) := by
    intro lp r
    simp [fnTapStep]
  have hstep2 : fnTapStep ⟨false, t1⟩ t2 true = (⟨true, 0⟩, true) := by
    simp [fnTapStep, h21]
  have hstepB : fnTapStep ⟨false, t1⟩ (t1 + 1 / 4) true = (⟨true, t1 + 1 / 4⟩, false) := by
    simp [fnTapStep]
    rw [hw]
    norm_num
  have hstep3 : fnTapStep ⟨false, 0⟩ t3 true = (⟨true, t3⟩, false) := by
    simp [fnTapStep]
    linarith
  refine ⟨?_, ?_, ?_, ?_⟩
  · simp only [fnTapRun, hstep1, hrel, hstep2]
    norm_num
  · simp only [fnTapRun, hstep1, hrel, hstepB]
    norm_num
  · simp only [fnTapRun, hstep1, hrel, hstep2, hstep3]
    norm_num
  · simp only [fnTapRun, hstep1, hrel]
    norm_num

theorem fn_double_tap_witness :
    (fnTapRun ⟨false, 0⟩ [(1, true), (21 / 20, false), (11 / 10, true)]).2 = 1 ∧
    (fnTapRun ⟨false, 0⟩ [(1, true), (21 / 20, false), ((1 : ℚ) + 1 / 4, true)]).2 = 0 ∧
    (fnTapRun ⟨false, 0⟩
      [(1, true), (21 / 20, false), (11 / 10, true), (23 / 20, false), (6 / 5, true)]).2 = 1 ∧
    (fnTapRun ⟨false, 0⟩ [(1, true), (21 / 20, false)]).2 = 0 :=
  fn_double_tap 1 (11 / 10) (6 / 5) (21 / 20) (23 / 20)
    (by norm_num [fnDoubleTapSeconds]) (by norm_num)
    (by norm_num [fnDoubleTapSeconds]) (by norm_num)
    (by norm_num [fnDoubleTapSeconds])

end SmartDictate
